import Mathlib

/-!
# Verification of the numpy PCA implementation

Shallow embedding of `principal_component_analysis/pca.py` over exact rational
arithmetic.  A numpy 2-D array is modelled as a list of rows of rationals and a
1-D array as a list of rationals.  The library decompositions `np.linalg.eig`
and `np.linalg.svd` are modelled as explicit inputs (oracle functions, or the
result triple passed directly); all surrounding arithmetic — centering,
covariance formation, argsort, fancy indexing, projection, the explained
variance quotient — is translated from the source.

Rational division by zero follows the Lean convention `q / 0 = 0`; wherever the
behaviour of numpy *float* division by zero matters (the explained-variance
quotient) it is modelled explicitly by `npDiv`, which produces `nan`/`±inf`
values rather than raising.
-/

namespace PCA

/-- Row vector of exact rationals (a numpy 1-D array). -/
abbrev Vec := List ℚ

/-- Matrix as a list of rows (a numpy 2-D array). -/
abbrev Mat := List Vec

/-- Pointwise sum of two rows (numpy elementwise `+`). -/
def vadd (a b : Vec) : Vec := List.zipWith (· + ·) a b

/-- Pointwise difference of two rows (numpy elementwise `-`). -/
def vsub (a b : Vec) : Vec := List.zipWith (· - ·) a b

/-- Scalar multiple of a row. -/
def vsmul (q : ℚ) (v : Vec) : Vec := v.map (fun x => q * x)

/-- Inner product of two rows (numpy `dot` on 1-D arrays). -/
def dot (a b : Vec) : ℚ := (List.zipWith (· * ·) a b).sum

/-- Number of columns of a rectangular matrix (`shape[1]`). -/
def width (X : Mat) : ℕ := (X.headD []).length

/-- Column sums of a rectangular nonempty matrix (numpy `X.sum(axis=0)`). -/
def colSums : Mat → Vec
  | [] => []
  | [r] => r
  | r :: rs => vadd r (colSums rs)

/-- Per-column mean, numpy `X.mean(axis=0)`. -/
def colMean (X : Mat) : Vec := (colSums X).map (fun s => s / (X.length : ℚ))

/-- Mean over all entries, numpy `X.mean()` with no axis argument. -/
def scalarMean (X : Mat) : ℚ :=
  (X.map List.sum).sum / ((X.length * width X : ℕ) : ℚ)

/-- Broadcast subtraction of a row vector from every row, numpy `X - m`. -/
def subRows (X : Mat) (m : Vec) : Mat := X.map (fun r => vsub r m)

/-- Broadcast subtraction of a scalar from every entry, numpy `X - c`. -/
def subScalar (X : Mat) (c : ℚ) : Mat := X.map (fun r => r.map (fun x => x - c))

/-- Product `A ⬝ Bᵀ`, numpy `A.dot(B.T)`: entry `(i, j)` is the inner product
of row `i` of `A` with row `j` of `B`. -/
def mulT (A B : Mat) : Mat := A.map (fun r => B.map (fun s => dot r s))

/-- Matrix-vector product: every row of `M` dotted with `v`. -/
def mulVec (M : Mat) (v : Vec) : Vec := M.map (fun r => dot r v)

/-- Column `j` of a matrix. -/
def colOf (M : Mat) (j : ℕ) : Vec := M.map (fun r => r.getD j 0)

/-- Transpose of a rectangular matrix, numpy `X.T`. -/
def transpose (X : Mat) : Mat := (List.range (width X)).map (fun j => colOf X j)

/-- Copy semantics of `np.array(X)`: an element-by-element copy of `X`. -/
def np_array (X : Mat) : Mat := X.map (fun r => r.map (fun q => q))

/-- Sample covariance `np.cov(M)` of a `d × n` matrix `M` whose rows are the
variables, each observed `n` times: numpy subtracts each row's own mean and
divides the pairwise inner products by `n - 1`. -/
def np_cov (M : Mat) : Mat :=
  let nobs : ℚ := (width M : ℚ)
  let C := M.map (fun r => r.map (fun q => q - r.sum / nobs))
  C.map (fun ri => C.map (fun rj => dot ri rj / (nobs - 1)))

/-- Model of numpy `vals.argsort()`: the list of indices that sorts `vals`
ascending (a stable model of the unspecified tie order). -/
def argsort (vals : Vec) : List ℕ :=
  List.insertionSort (fun i j => vals.getD i 0 ≤ vals.getD j 0)
    (List.range vals.length)

/-- Python exception kinds relevant here.  `attributeError` and `typeError`
are the built-ins the code actually raises when it touches `None` (attribute
access `None.T`, subscript `None[:k]`).  `invalidStateError` and
`degenerateVarianceError` are modelled from the spec (its §7 error taxonomy)
and exist only so the code's behaviour can be compared with the spec's; the
code never constructs them. -/
inductive PyError where
  | attributeError
  | typeError
  | invalidStateError
  | degenerateVarianceError
deriving DecidableEq

/-- Result of a numpy float computation: a real value, or one of the
non-finite values that float division by zero produces (numpy emits a warning
and returns `±inf` for `x/0` with `x ≠ 0`, `nan` for `0/0`; it does not
raise). -/
inductive NpFloat where
  | real (q : ℚ)
  | nan
  | posInf
  | negInf
deriving DecidableEq

/-- Semantics of numpy float division. -/
def npDiv (a b : ℚ) : NpFloat :=
  if b = 0 then (if a = 0 then .nan else if 0 < a then .posInf else .negInf)
  else .real (a / b)

/-- Persistent state of a `PCA` object: the constructor arguments plus the
fields `components` and `vectors`, both initialised to `None`.  Note there is
no field for a fitted mean — the class never stores one. -/
structure PCAState where
  n_components : ℕ
  solver : String
  components : Option Vec
  vectors : Option Mat
deriving DecidableEq

/-- Constructor `PCA.__init__(n_components, solver='svd')`. -/
def init (n_components : ℕ) (solver : String) : PCAState :=
  { n_components := n_components, solver := solver
    components := none, vectors := none }

/-- Value `zero_mean` as computed by `fit`: `x - x.mean(axis=0)`, the
per-feature centering. -/
def fitCenter (X : Mat) : Mat := subRows X (colMean X)

/-- Value `zero_mean` as computed by `fit_transform`: `x - x.mean()`, a
centering by the single scalar mean of all entries. -/
def ftCenter (X : Mat) : Mat := subScalar X (scalarMean X)

/-- Method `PCA.fit_cov`.  The call `np.linalg.eig(cov)` is modelled by the
oracle `eig`, returning the pair (eigenvalues, eigenvector matrix); numpy
returns the eigenvectors as the *columns* of that matrix.  The code argsorts
the eigenvalues descending and indexes both results with `idx`; on the 2-D
array `vectors` the indexing `vectors[idx]` selects *rows*. -/
def fit_cov (st : PCAState) (X : Mat) (eig : Mat → Vec × Mat) : PCAState :=
  let covM := np_cov (transpose X)
  let vals := (eig covM).1
  let vecs := (eig covM).2
  let idx := (argsort vals).reverse
  { st with components := some (idx.map (fun i => vals.getD i 0))
            vectors := some (idx.map (fun i => vecs.getD i [])) }

/-- Method `PCA.fit_svd`.  The call `np.linalg.svd(X)` returns `U, sig, V`;
`U` is unused by the code, so the model takes `sig` and `V` directly and
stores `V` and `sig**2 / (X.shape[0] - 1)`. -/
def fit_svd (st : PCAState) (X : Mat) (sig : Vec) (V : Mat) : PCAState :=
  { st with vectors := some V
            components := some (sig.map (fun s => s ^ 2 / ((X.length : ℚ) - 1))) }

/-- Method `PCA.fit`: copy `X`, center per feature, dispatch on the solver
string.  `svd` names the `np.linalg.svd` oracle returning `(U, sig, V)`. -/
def fit (st : PCAState) (eig : Mat → Vec × Mat) (svd : Mat → Mat × Vec × Mat)
    (X : Mat) : PCAState :=
  let x := np_array X
  let zero_mean := fitCenter x
  if st.solver = "svd" then
    fit_svd st zero_mean (svd zero_mean).2.1 (svd zero_mean).2.2
  else fit_cov st zero_mean eig

/-- Method `PCA.transform`: `(X - X.mean(axis=0)).dot(self.vectors.T)`.  The
mean is taken of the argument `X` itself; and when `self.vectors` is still
`None`, the attribute access `None.T` raises `AttributeError`. -/
def transform (st : PCAState) (X : Mat) : Except PyError Mat :=
  match st.vectors with
  | none => .error .attributeError
  | some V => .ok (mulT (subRows X (colMean X)) V)

/-- Method `PCA.fit_transform`: centers by the *scalar* mean `x.mean()`, fits
the chosen solver on that matrix, then returns `self.transform(x)`; the result
is the updated state paired with the returned projection. -/
def fit_transform (st : PCAState) (eig : Mat → Vec × Mat)
    (svd : Mat → Mat × Vec × Mat) (X : Mat) : PCAState × Except PyError Mat :=
  let x := np_array X
  let zero_mean := ftCenter x
  let st2 :=
    if st.solver = "svd" then
      fit_svd st zero_mean (svd zero_mean).2.1 (svd zero_mean).2.2
    else fit_cov st zero_mean eig
  (st2, transform st2 x)

/-- Property `PCA.explained_variance`:
`self.components[:self.n_components].sum() / self.components.sum()`.  When
`components` is `None` the subscript `None[:k]` raises `TypeError`; otherwise
the quotient is numpy float division (`npDiv`). -/
def explained_variance (st : PCAState) : Except PyError NpFloat :=
  match st.components with
  | none => .error .typeError
  | some comps => .ok (npDiv (comps.take st.n_components).sum comps.sum)

/-- Modelled from the spec: the Projector contract
`projected = (X - fitMean) . directionsTranspose`, where `fitMean` is the
per-feature mean computed at fit time and stored by the fit (spec §2, §3,
§4.4).  The class itself stores no such mean; this definition exists to
compare the code's `transform` against the spec's contract. -/
def specTransform (fitMean : Vec) (V : Mat) (X : Mat) : Mat :=
  mulT (subRows X fitMean) V

/-- Statement-by-statement reading of `fit` over an explicit environment:
every local (`x`, `zero_mean`) is a fresh allocation (`np.array` copies,
subtraction and `mean` allocate), and no statement assigns into the caller's
`X`; the first component returns the content of `X` after the call. -/
def fitSteps (st : PCAState) (eig : Mat → Vec × Mat)
    (svd : Mat → Mat × Vec × Mat) (X : Mat) : Mat × Mat × Mat × PCAState :=
  let x := np_array X
  let zero_mean := fitCenter x
  let st2 :=
    if st.solver = "svd" then
      fit_svd st zero_mean (svd zero_mean).2.1 (svd zero_mean).2.2
    else fit_cov st zero_mean eig
  (X, x, zero_mean, st2)

/-- Statement-by-statement reading of `transform`: the centered matrix is a
fresh allocation; the first component is the content of `X` after the call. -/
def transformSteps (st : PCAState) (X : Mat) : Mat × Except PyError Mat :=
  (X, transform st X)

/-- Statement-by-statement reading of `fit_transform`, returning the content
of the caller's `X` buffer alongside the state and projection. -/
def ftSteps (st : PCAState) (eig : Mat → Vec × Mat)
    (svd : Mat → Mat × Vec × Mat) (X : Mat) :
    Mat × PCAState × Except PyError Mat :=
  (X, fit_transform st eig svd X)

/-- Predicate for a matrix whose columns each have mean zero (the precondition
both solvers state for their input). -/
def isCentered (X : Mat) : Prop := colMean X = List.replicate (width X) 0

/-! ## Helper lemmas -/

/-- Indexing a value list by its reversed ascending argsort yields a
non-increasing list. -/
theorem argsort_desc_values_sorted (vals : Vec) :
    ((argsort vals).reverse.map (fun i => vals.getD i 0)).Pairwise (· ≥ ·) := by
  haveI : IsTotal ℕ (fun i j => vals.getD i 0 ≤ vals.getD j 0) :=
    ⟨fun a b => le_total _ _⟩
  haveI : IsTrans ℕ (fun i j => vals.getD i 0 ≤ vals.getD j 0) :=
    ⟨fun a b c hab hbc => le_trans hab hbc⟩
  have h := List.sorted_insertionSort
    (fun i j => vals.getD i 0 ≤ vals.getD j 0) (List.range vals.length)
  rw [List.pairwise_map, List.pairwise_reverse]
  exact h.imp (fun hab => hab)

/-! ## Claim theorems -/

/-- C5: for a centered input with more than one observation, the SVD solver
stores `variances[i] = sig[i]^2 / (n - 1)` and stores the right-singular
matrix `V` as the directions. -/
theorem C5_svd_variances_and_directions (st : PCAState) (X : Mat) (sig : Vec)
    (V : Mat) (hcent : isCentered X) (hn : 1 < X.length) :
    (fit_svd st X sig V).vectors = some V ∧
    ∀ cs, (fit_svd st X sig V).components = some cs →
      cs.length = sig.length ∧
      ∀ i, i < sig.length →
        cs.getD i 0 = (sig.getD i 0) ^ 2 / ((X.length : ℚ) - 1) := by
  refine ⟨rfl, ?_⟩
  intro cs hcs
  have hcs2 : cs = sig.map (fun s => s ^ 2 / ((X.length : ℚ) - 1)) := by
    simpa [fit_svd] using hcs.symm
  subst hcs2
  refine ⟨List.length_map _ _, ?_⟩
  intro i hi
  have hi2 : i < (sig.map (fun s => s ^ 2 / ((X.length : ℚ) - 1))).length := by
    simpa using hi
  simp [List.getD_eq_getElem?_getD, List.getElem?_eq_getElem hi,
    List.getElem?_eq_getElem hi2]

/-- C5 witness: the theorem evaluated on a concrete centered 2×2 matrix. -/
theorem C5_witness :
    (fit_svd (init 2 "svd") [[-1, -1], [1, 1]] [2, 0] [[1, 0], [0, 1]]).vectors
        = some [[1, 0], [0, 1]] ∧
    ∀ cs, (fit_svd (init 2 "svd") [[-1, -1], [1, 1]] [2, 0]
        [[1, 0], [0, 1]]).components = some cs →
      cs.length = ([2, 0] : Vec).length ∧
      ∀ i, i < ([2, 0] : Vec).length →
        cs.getD i 0 = (([2, 0] : Vec).getD i 0) ^ 2
          / ((([[-1, -1], [1, 1]] : Mat).length : ℚ) - 1) :=
  C5_svd_variances_and_directions (init 2 "svd") [[-1, -1], [1, 1]] [2, 0]
    [[1, 0], [0, 1]]
    (by norm_num [isCentered, colMean, colSums, vadd, width,
      show List.replicate 2 (0 : ℚ) = [0, 0] from rfl])
    (by norm_num)

/-- C6 counterexample: on a freshly constructed model, `transform` fails with
the `AttributeError` raised by evaluating `None.T`, which is not the
`InvalidStateError` the claim names. -/
theorem C6_counterexample :
    transform (init 2 "svd") [[1, 2]] = .error .attributeError ∧
      (Except.error PyError.attributeError : Except PyError Mat)
        ≠ .error .invalidStateError := by
  exact ⟨rfl, by simp⟩

/-- C6 amended: calling `transform` before any fit always raises an error —
the `AttributeError` from the unset directions — and never returns a
result. -/
theorem C6_transform_before_fit_errors (k : ℕ) (s : String) (X : Mat) :
    transform (init k s) X = .error .attributeError := rfl

/-- C7 counterexample: with all-zero fitted variances, the explained-variance
query performs the numpy float division `0/0` and returns `nan`; it does not
signal the `DegenerateVarianceError` the claim names. -/
theorem C7_counterexample :
    explained_variance ⟨2, "svd", some [0, 0], some []⟩ = .ok .nan ∧
      (Except.ok NpFloat.nan : Except PyError NpFloat)
        ≠ .error .degenerateVarianceError := by
  refine ⟨?_, by simp⟩
  norm_num [explained_variance, npDiv]

/-- C7 amended: whenever every stored variance is zero (constant input data),
`explained_variance` performs the division under numpy float semantics and
returns `nan` rather than signalling an error. -/
theorem C7_degenerate_variance_nan (st : PCAState) (comps : Vec)
    (hc : st.components = some comps) (hz : ∀ q ∈ comps, q = 0) :
    explained_variance st = .ok .nan := by
  have hsum : comps.sum = 0 := List.sum_eq_zero hz
  have htake : (comps.take st.n_components).sum = 0 :=
    List.sum_eq_zero (fun q hq => hz q (List.mem_of_mem_take hq))
  simp [explained_variance, hc, npDiv, hsum, htake]

/-- C7 witness: the amended theorem evaluated on a concrete degenerate
state. -/
theorem C7_witness :
    explained_variance ⟨1, "cov", some [0, 0, 0], some []⟩ = .ok .nan :=
  C7_degenerate_variance_nan _ [0, 0, 0] rfl (by norm_num)

/-- C8: no operation mutates the caller's input matrix: `np.array` copies it
value-for-value, and the statement-by-statement readings of `fit`,
`transform` and `fit_transform` leave the `X` buffer exactly as supplied. -/
theorem C8_no_input_mutation (st : PCAState) (eig : Mat → Vec × Mat)
    (svd : Mat → Mat × Vec × Mat) (X : Mat) :
    np_array X = X ∧ (fitSteps st eig svd X).1 = X ∧
      (transformSteps st X).1 = X ∧ (ftSteps st eig svd X).1 = X := by
  refine ⟨?_, rfl, rfl, rfl⟩
  simp [np_array]

/-- C10: when the requested component count is at least the number of stored
variances and the total variance is non-zero, the explained variance ratio is
exactly 1 (the slice clamps; nothing is raised). -/
theorem C10_ratio_clamps_to_one (st : PCAState) (comps : Vec)
    (hc : st.components = some comps)
    (hk : comps.length ≤ st.n_components) (hs : comps.sum ≠ 0) :
    explained_variance st = .ok (.real 1) := by
  have htake : comps.take st.n_components = comps := List.take_of_length_le hk
  simp [explained_variance, hc, htake, npDiv, hs, div_self hs]

/-- C10 witness: the theorem evaluated on a concrete fitted state with two
variances and five requested components. -/
theorem C10_witness :
    explained_variance ⟨5, "svd", some [3, 1], some []⟩ = .ok (.real 1) :=
  C10_ratio_clamps_to_one _ [3, 1] rfl (by norm_num) (by norm_num)

/-- C1: `transform` re-centers by the mean of the matrix being transformed,
not by any fit-time mean (none is ever stored).  Concretely: fitting
`X0 = [[1,2],[7,10]]` (fit mean `[4,6]`, centered data `[[-3,-4],[3,4]]`)
yields the genuine right-singular directions `[3/5,4/5]` and `[-4/5,3/5]`
(rows of `V`, checked here as eigenvectors of `XcᵀXc` with eigenvalues 50 and
0, so `components = [50, 0]`); transforming the single row `Z = [[10,10]]`
then returns `[[0,0]]` because `Z` is centered by its own mean `[10,10]`,
while the spec's Projector `(Z - fitMean) ⬝ Vᵀ` returns `[[34/5,-12/5]]`. -/
theorem C1_transform_recomputes_mean :
    colMean [[1, 2], [7, 10]] = [4, 6] ∧
    fitCenter [[1, 2], [7, 10]] = [[-3, -4], [3, 4]] ∧
    mulVec (mulT (transpose [[-3, -4], [3, 4]]) (transpose [[-3, -4], [3, 4]]))
        [3/5, 4/5] = vsmul 50 [3/5, 4/5] ∧
    mulVec (mulT (transpose [[-3, -4], [3, 4]]) (transpose [[-3, -4], [3, 4]]))
        [-4/5, 3/5] = vsmul 0 [-4/5, 3/5] ∧
    transform ⟨2, "svd", some [50, 0], some [[3/5, 4/5], [-4/5, 3/5]]⟩
        [[10, 10]] = .ok [[0, 0]] ∧
    specTransform [4, 6] [[3/5, 4/5], [-4/5, 3/5]] [[10, 10]]
        = [[34/5, -12/5]] ∧
    (Except.ok [[0, 0]] : Except PyError Mat) ≠ .ok [[34/5, -12/5]] := by
  refine ⟨?_, ?_, ?_, ?_, ?_, ?_, ?_⟩ <;>
    norm_num [colMean, colSums, vadd, fitCenter, subRows, vsub, mulVec, mulT,
      transpose, colOf, width, dot, vsmul, transform, specTransform,
      List.range, List.range.loop]

/-- C2: `fit_transform` centers the data it hands to the solver by the scalar
mean of all entries (`x.mean()`), while `fit` centers per feature
(`x.mean(axis=0)`).  At `X0 = [[0,0],[2,4]]` the scalar mean is `3/2`, the
per-feature mean is `[1,2]`, and the two centered matrices handed to the
solver differ — so for the svd solver `fit_transform(X0)` decomposes a
different matrix than `fit(X0)` does, and the two projections disagree. -/
theorem C2_fit_transform_centers_by_scalar_mean :
    np_array [[0, 0], [2, 4]] = [[0, 0], [2, 4]] ∧
    scalarMean [[0, 0], [2, 4]] = 3/2 ∧
    colMean [[0, 0], [2, 4]] = [1, 2] ∧
    ftCenter [[0, 0], [2, 4]] = [[-3/2, -3/2], [1/2, 5/2]] ∧
    fitCenter [[0, 0], [2, 4]] = [[-1, -2], [1, 2]] ∧
    ftCenter [[0, 0], [2, 4]] ≠ fitCenter [[0, 0], [2, 4]] := by
  refine ⟨?_, ?_, ?_, ?_, ?_, ?_⟩ <;>
    norm_num [np_array, scalarMean, colMean, colSums, vadd, ftCenter,
      subScalar, fitCenter, subRows, vsub, width]

/-- C3: `fit_cov` argsorts the eigenvalues descending, but the indexing
`vectors[idx]` permutes the *rows* of the eigenvector matrix whose
eigenvectors are its *columns*.  Concretely: the centered data
`X0 = [[-4,3],[4,-3]]` has covariance `[[32,-24],[-24,18]]`, whose unit
eigenvectors are the columns of `[[3/5,-4/5],[4/5,3/5]]` (eigenvalues 0 and
50, verified below).  The fitted state then stores `components = [50, 0]` but
`vectors = [[4/5,3/5],[3/5,-4/5]]`, and its first stored direction
`[4/5,3/5]` is not an eigenvector of the covariance for `variances[0] = 50`
(nor for any eigenvalue). -/
theorem C3_fit_cov_misindexes_eigenvectors :
    np_cov (transpose [[-4, 3], [4, -3]]) = [[32, -24], [-24, 18]] ∧
    mulVec [[32, -24], [-24, 18]] (colOf [[3/5, -4/5], [4/5, 3/5]] 0)
      = vsmul 0 (colOf [[3/5, -4/5], [4/5, 3/5]] 0) ∧
    mulVec [[32, -24], [-24, 18]] (colOf [[3/5, -4/5], [4/5, 3/5]] 1)
      = vsmul 50 (colOf [[3/5, -4/5], [4/5, 3/5]] 1) ∧
    (fit_cov (init 2 "cov") [[-4, 3], [4, -3]]
        (fun _ => ([0, 50], [[3/5, -4/5], [4/5, 3/5]]))).components
      = some [50, 0] ∧
    (fit_cov (init 2 "cov") [[-4, 3], [4, -3]]
        (fun _ => ([0, 50], [[3/5, -4/5], [4/5, 3/5]]))).vectors
      = some [[4/5, 3/5], [3/5, -4/5]] ∧
    mulVec [[32, -24], [-24, 18]] [4/5, 3/5] ≠ vsmul 50 [4/5, 3/5] := by
  refine ⟨?_, ?_, ?_, ?_, ?_, ?_⟩ <;>
    norm_num [np_cov, transpose, width, colOf, dot, mulVec, vsmul, fit_cov,
      init, argsort, List.insertionSort, List.range, List.range.loop]

/-- C4: after a fit by either solver the stored variances are non-increasing:
the covariance path sorts explicitly (whatever `eig` returns), and the SVD
path maps singular values — non-negative and descending, as numpy guarantees —
through the order-preserving `s ↦ s²/(n-1)`. -/
theorem C4_variances_nonincreasing (stc sts : PCAState) (X Xc : Mat)
    (eig : Mat → Vec × Mat) (sig : Vec) (V : Mat)
    (hsig : sig.Pairwise (· ≥ ·)) (hpos : ∀ s ∈ sig, 0 ≤ s)
    (hn : 2 ≤ Xc.length) :
    (∀ cs, (fit_cov stc X eig).components = some cs → cs.Pairwise (· ≥ ·)) ∧
    (∀ cs, (fit_svd sts Xc sig V).components = some cs →
      cs.Pairwise (· ≥ ·)) := by
  constructor
  · intro cs hcs
    have h1 : cs = ((argsort (eig (np_cov (transpose X))).1).reverse.map
        (fun i => (eig (np_cov (transpose X))).1.getD i 0)) := by
      simpa [fit_cov] using hcs.symm
    rw [h1]
    exact argsort_desc_values_sorted _
  · intro cs hcs
    have h1 : cs = sig.map (fun s => s ^ 2 / ((Xc.length : ℚ) - 1)) := by
      simpa [fit_svd] using hcs.symm
    subst h1
    rw [List.pairwise_map]
    have hd : (0 : ℚ) < (Xc.length : ℚ) - 1 := by
      have h2 : (2 : ℚ) ≤ (Xc.length : ℚ) := by exact_mod_cast hn
      linarith
    refine hsig.imp_of_mem ?_
    intro a b ha hb hab
    have hb0 : 0 ≤ b := hpos b hb
    have hsq : b ^ 2 ≤ a ^ 2 := by nlinarith
    exact div_le_div_of_nonneg_right hsq hd.le

/-! ### Row-arithmetic lemmas for the translation-invariance claim -/

theorem vadd_comm (a b : Vec) : vadd a b = vadd b a :=
  List.zipWith_comm_of_comm _ add_comm a b

theorem vadd_assoc (a b c : Vec) : vadd (vadd a b) c = vadd a (vadd b c) := by
  induction a generalizing b c with
  | nil => simp [vadd]
  | cons x a ih =>
    cases b with
    | nil => simp [vadd]
    | cons y b =>
      cases c with
      | nil => simp [vadd]
      | cons z c =>
        simp only [vadd, List.zipWith_cons_cons, List.cons.injEq]
        exact ⟨by ring, ih b c⟩

theorem vadd_left_comm (a b c : Vec) :
    vadd a (vadd b c) = vadd b (vadd a c) := by
  rw [← vadd_assoc, vadd_comm a b, vadd_assoc]

theorem vadd_map_map (f g : ℚ → ℚ) (c : Vec) :
    vadd (c.map f) (c.map g) = c.map (fun x => f x + g x) := by
  induction c with
  | nil => simp [vadd]
  | cons x c ih => simp [vadd, ih]

theorem vsmul_succ (q : ℚ) (c : Vec) :
    vsmul (q + 1) c = vadd (vsmul q c) c := by
  calc vsmul (q + 1) c = c.map (fun x => q * x + x) := by
        rw [vsmul]
        apply List.map_congr_left
        intro x _
        ring
    _ = vadd (c.map (fun x => q * x)) (c.map (fun x => x)) :=
        (vadd_map_map _ _ c).symm
    _ = vadd (vsmul q c) c := by rw [vsmul, List.map_id']

theorem colSums_map_vadd (c : Vec) : ∀ (X : Mat), X ≠ [] →
    colSums (X.map (fun r => vadd r c))
      = vadd (colSums X) (vsmul (X.length : ℚ) c)
  | [], h => absurd rfl h
  | [r], _ => by
    simp [colSums, vsmul, one_mul, List.map_id']
  | r :: s :: t, _ => by
    have ih := colSums_map_vadd c (s :: t) (by simp)
    have e1 : colSums ((r :: s :: t).map (fun r => vadd r c))
        = vadd (vadd r c) (colSums ((s :: t).map (fun r => vadd r c))) := rfl
    have e2 : colSums (r :: s :: t) = vadd r (colSums (s :: t)) := rfl
    have e3 : (((r :: s :: t).length : ℕ) : ℚ) = ((s :: t).length : ℚ) + 1 := by
      push_cast [List.length_cons]
      ring
    rw [e1, ih, e2, e3, vsmul_succ,
      vadd_assoc r c (vadd (colSums (s :: t))
        (vsmul ((s :: t).length : ℚ) c)),
      vadd_left_comm c (colSums (s :: t)) (vsmul ((s :: t).length : ℚ) c),
      ← vadd_assoc r (colSums (s :: t))
        (vadd c (vsmul ((s :: t).length : ℚ) c)),
      vadd_comm c (vsmul ((s :: t).length : ℚ) c)]

theorem map_div_vadd_vsmul (n : ℚ) (hn : n ≠ 0) (u c : Vec) :
    (vadd u (vsmul n c)).map (fun x => x / n)
      = vadd (u.map (fun x => x / n)) c := by
  induction u generalizing c with
  | nil => simp [vadd]
  | cons x u ih =>
    cases c with
    | nil => simp [vadd, vsmul]
    | cons y c =>
      simp only [vsmul, List.map_cons, vadd, List.zipWith_cons_cons,
        List.cons.injEq]
      refine ⟨by field_simp; ring, ?_⟩
      exact ih c

theorem colMean_map_vadd (X : Mat) (c : Vec) (hn : X ≠ []) :
    colMean (X.map (fun r => vadd r c)) = vadd (colMean X) c := by
  have hnq : ((X.length : ℕ) : ℚ) ≠ 0 := by
    have h1 : 0 < X.length := List.length_pos.mpr hn
    exact_mod_cast Nat.pos_iff_ne_zero.mp h1
  rw [colMean, colMean]
  simp only [List.length_map]
  rw [colSums_map_vadd c X hn,
    map_div_vadd_vsmul (X.length : ℚ) hnq (colSums X) c]

theorem vsub_vadd_vadd : ∀ (r m c : Vec), r.length = c.length →
    m.length = c.length → vsub (vadd r c) (vadd m c) = vsub r m := by
  intro r
  induction r with
  | nil =>
    intro m c h1 h2
    have hc : c = [] := List.length_eq_zero.mp h1.symm
    subst hc
    have hm : m = [] := List.length_eq_zero.mp h2
    subst hm
    rfl
  | cons x r ih =>
    intro m c h1 h2
    cases c with
    | nil => simp at h1
    | cons y c =>
      cases m with
      | nil => simp at h2
      | cons z m =>
        simp only [vadd, vsub, List.zipWith_cons_cons, List.cons.injEq]
        refine ⟨by ring, ih m c (by simpa using h1) (by simpa using h2)⟩

theorem length_colSums : ∀ (X : Mat), X ≠ [] →
    (∀ r ∈ X, r.length = width X) → (colSums X).length = width X
  | [], h, _ => absurd rfl h
  | [r], _, _ => rfl
  | r :: s :: t, _, hw => by
    have hs : s.length = width (r :: s :: t) := hw s (by simp)
    have hw2 : ∀ a ∈ s :: t, a.length = width (s :: t) := by
      intro a ha
      have h1 := hw a (List.mem_cons_of_mem _ ha)
      simp only [width, List.headD_cons] at h1 hs ⊢
      omega
    have ih := length_colSums (s :: t) (by simp) hw2
    show (vadd r (colSums (s :: t))).length = width (r :: s :: t)
    rw [vadd, List.length_zipWith, ih]
    simp only [width, List.headD_cons] at hs ⊢
    omega

theorem subRows_colMean_map_vadd (X : Mat) (c : Vec) (hn : X ≠ [])
    (hw : ∀ r ∈ X, r.length = width X) (hc : c.length = width X) :
    subRows (X.map (fun r => vadd r c)) (colMean (X.map (fun r => vadd r c)))
      = subRows X (colMean X) := by
  rw [colMean_map_vadd X c hn, subRows, subRows, List.map_map]
  apply List.map_congr_left
  intro r hr
  show vsub (vadd r c) (vadd (colMean X) c) = vsub r (colMean X)
  apply vsub_vadd_vadd
  · rw [hw r hr, hc]
  · rw [colMean, List.length_map, length_colSums X hn hw, hc]

/-- C9: `transform` is invariant under adding a fixed row `c` to every row of
its input, because it re-centers the input by that input's own per-column
mean before projecting. -/
theorem C9_transform_translation_invariant (st : PCAState) (V : Mat) (X : Mat)
    (c : Vec) (hV : st.vectors = some V) (hn : X ≠ [])
    (hw : ∀ r ∈ X, r.length = width X) (hc : c.length = width X) :
    transform st (X.map (fun r => vadd r c)) = transform st X := by
  simp only [transform, hV]
  rw [subRows_colMean_map_vadd X c hn hw hc]

/-- C9 witness: the theorem evaluated at a concrete fitted state, a concrete
2×2 input and the concrete translation `[10, 20]`. -/
theorem C9_witness :
    transform ⟨2, "svd", some [1, 1], some [[1, 0], [0, 1]]⟩
        (([[1, 2], [3, 4]] : Mat).map (fun r => vadd r [10, 20]))
      = transform ⟨2, "svd", some [1, 1], some [[1, 0], [0, 1]]⟩
        [[1, 2], [3, 4]] :=
  C9_transform_translation_invariant ⟨2, "svd", some [1, 1], some [[1, 0], [0, 1]]⟩
    [[1, 0], [0, 1]] [[1, 2], [3, 4]] [10, 20] rfl (by simp)
    (by
      intro r hr
      simp only [List.mem_cons, List.not_mem_nil, or_false] at hr
      rcases hr with rfl | rfl <;> rfl)
    rfl

/-- C4 witness: the theorem evaluated at a concrete covariance fit and a
concrete SVD fit. -/
theorem C4_witness :
    (∀ cs, (fit_cov (init 3 "cov") [[-4, 3], [4, -3]]
        (fun _ => ([0, 50], [[3/5, -4/5], [4/5, 3/5]]))).components = some cs →
      cs.Pairwise (· ≥ ·)) ∧
    (∀ cs, (fit_svd (init 3 "svd") [[-1, -1], [1, 1]] [2, 0]
        [[1, 0], [0, 1]]).components = some cs → cs.Pairwise (· ≥ ·)) :=
  C4_variances_nonincreasing (init 3 "cov") (init 3 "svd") [[-4, 3], [4, -3]]
    [[-1, -1], [1, 1]] (fun _ => ([0, 50], [[3/5, -4/5], [4/5, 3/5]]))
    [2, 0] [[1, 0], [0, 1]]
    (by norm_num [List.pairwise_cons]) (by norm_num) (by norm_num)

end PCA
